import Mathlib

/-!
Verification of the ESP32 MQTT measurement firmware (`src/main.rs`).

The embedding models the command-driven sampling pipeline:

* `calc_temp` together with the calibration constants `T_1`, `T_2`, `V_1`,
  `V_2`, `V_T` (main.rs lines 33-43), with `f32` arithmetic modelled by
  exact rationals;
* `splitOn`, the semantics of Rust `str::split` with a one-character
  separator (always yields at least one segment; `"".split(sep) == [""]`);
* `parse_measure_args` (main.rs lines 232-253) including the `u64` range
  check of `str::parse::<u64>`;
* `handle_measure` (main.rs lines 202-230): the countdown sampling loop
  `for i in (0..amount).rev()`, modelled as `measureIter` over an
  environment supplying the successful ADC readings and uptime clock
  (sensor and publish failures abort via `unwrap` in the source and are
  outside the success-path environment);
* the dispatcher loop of `handle_mqtt` (main.rs lines 188-199), modelled
  by `handle_command` / `handle_mqtt_loop`;
* the MQTT event-ingestion thread (main.rs lines 154-175), modelled by
  `ingestStep` with a byte-exact UTF-8 decoder `utf8Decode` standing for
  `std::str::from_utf8`; the `.unwrap()` on a decode failure is modelled
  by the `panicked` outcome;
* the telemetry line format `format!("{},{:.2},{}", ...)` (main.rs lines
  223-227), modelled by `formatRecord` with `{:.2}` rounding to the
  nearest hundredth (`fmtFixed2`).
-/

/-- Calibration constant `T_1` (min temp, main.rs line 34); `f32` modelled as `ℚ`. -/
def T_1 : ℚ := 0

/-- Calibration constant `T_2` (max temp, main.rs line 35). -/
def T_2 : ℚ := 50

/-- Calibration constant `V_1` (labelled "Voltage at max temp", main.rs line 36). -/
def V_1 : ℚ := 2100

/-- Calibration constant `V_2` (labelled "Voltage at min temp", main.rs line 37). -/
def V_2 : ℚ := 1558

/-- Derived slope `V_T = (V_2 - V_1) / (T_2 - T_1)` (main.rs line 39). -/
def V_T : ℚ := (V_2 - V_1) / (T_2 - T_1)

/-- `calc_temp` (main.rs lines 41-43): `((voltage - V_1) / V_T) + T_1`. -/
def calc_temp (voltage : ℚ) : ℚ :=
  ((voltage - V_1) / V_T) + T_1

/-- Rust `str::split` with a one-character separator, on the character list
of the string: every occurrence of `sep` separates two (possibly empty)
segments, and the empty string splits into `[[]]`. -/
def splitOn (sep : Char) : List Char → List (List Char)
  | [] => [[]]
  | c :: rest =>
    if c = sep then
      [] :: splitOn sep rest
    else
      match splitOn sep rest with
      | [] => [[c]]
      | s :: ss => (c :: s) :: ss

/-- Accumulating decimal reader: consumes decimal digits, failing on any
non-digit character.  Used to model Rust's `str::parse::<u64>` digit loop. -/
def digitsValAux : List Char → Nat → Option Nat
  | [], acc => some acc
  | c :: rest, acc =>
    if c.isDigit then
      digitsValAux rest (10 * acc + (c.toNat - 48))
    else
      none

/-- Rust `str::parse::<u64>`: an optional leading `'+'`, then one or more
decimal digits, with the value required to fit in 64 bits. -/
def parseU64 (s : List Char) : Option Nat :=
  let t := match s with
    | '+' :: r => r
    | _ => s
  if t = [] then none
  else
    match digitsValAux t 0 with
    | some v => if v < 2 ^ 64 then some v else none
    | none => none

/-- The error outcomes of `parse_measure_args` (main.rs lines 232-253),
distinguished by which `error!` line fires. -/
inductive MeasureArgErr
  | wrongArgCount (got : Nat)
  | notANumberAmount (raw : List Char)
  | notANumberDelay (raw : List Char)
deriving DecidableEq, Repr

/-- `parse_measure_args` (main.rs lines 232-253): split the args segment on
`','`; exactly two fields required; each field parsed as `u64`, amount
first. -/
def parse_measure_args (arg_string : List Char) :
    Except MeasureArgErr (Nat × Nat) :=
  match splitOn ',' arg_string with
  | [a0, a1] =>
    match parseU64 a0 with
    | none => .error (.notANumberAmount a0)
    | some amount =>
      match parseU64 a1 with
      | none => .error (.notANumberDelay a1)
      | some delay => .ok (amount, delay)
  | args => .error (.wrongArgCount args.length)

/-- One telemetry record: the countdown index, the converted value
(`f32` as `ℚ`) and the uptime timestamp (`u128` milliseconds as `ℕ`). -/
structure TelemetryRecord where
  remaining : Nat
  value : ℚ
  uptime_ms : Nat
deriving DecidableEq, Repr

/-- The success-path environment of the sampling loop: `read k` is the raw
ADC reading returned by the `k`-th successful `adc1.read(&mut pin34)`
(a `u16`), and `uptime k` the `start_time.elapsed()` milliseconds observed
at that sample. -/
structure Env where
  read : Nat → Nat
  uptime : Nat → Nat

/-- The loop `for i in (0..amount).rev()` of `handle_measure` (main.rs
lines 217-229), started with `amount` iterations remaining and with `k`
samples consumed so far: each iteration sleeps, reads the sensor, converts
via `calc_temp`, and emits one record carrying the countdown index. -/
def measureIter (env : Env) (k : Nat) : Nat → List TelemetryRecord
  | 0 => []
  | i + 1 =>
    ⟨i, calc_temp (env.read k), env.uptime k⟩ :: measureIter env (k + 1) i

/-- What the dispatcher does with one queued message: each constructor
matches one `error!` line or the record-emitting measure path. -/
inductive DispatchEvent
  | invalidCommandString
  | unknownCmd (verb : List Char)
  | missingArgs
  | argError (e : MeasureArgErr)
  | measured (records : List TelemetryRecord)
deriving DecidableEq, Repr

/-- `handle_measure` (main.rs lines 202-230) applied to the split command
array: fewer than two segments is `MissingArgs`; otherwise segment 1 is fed
to `parse_measure_args` (further segments are ignored) and on success the
sampling loop runs.  Returns the event together with the updated sample
counter. -/
def handle_measure (env : Env) (k : Nat) (command_arr : List (List Char)) :
    DispatchEvent × Nat :=
  match command_arr with
  | _ :: args :: _ =>
    match parse_measure_args args with
    | .error e => (.argError e, k)
    | .ok (amount, _delay) => (.measured (measureIter env k amount), k + amount)
  | _ => (.missingArgs, k)

/-- The verb the dispatcher matches (main.rs line 195). -/
def measureVerb : List Char := [ 'm', 'e', 'a', 's', 'u', 'r', 'e' ]

/-- One iteration of the dispatcher loop of `handle_mqtt` (main.rs lines
188-199): split the message on `':'`, report an invalid command string if
the split is empty (dead branch: `splitOn` never returns `[]`), route verb
`"measure"` to `handle_measure`, and report any other verb as unknown. -/
def handle_command (env : Env) (k : Nat) (x : List Char) :
    DispatchEvent × Nat :=
  let command_arr := splitOn ':' x
  match command_arr with
  | [] => (.invalidCommandString, k)
  | verb :: _ =>
    if verb = measureVerb then
      handle_measure env k command_arr
    else
      (.unknownCmd verb, k)

/-- The dispatcher loop `for x in rx` of `handle_mqtt` (main.rs lines
188-199): messages are popped in FIFO order and each is handled
synchronously to completion before the next is read. -/
def handle_mqtt_loop (env : Env) (k : Nat) : List (List Char) → List DispatchEvent
  | [] => []
  | x :: rest =>
    let (ev, k') := handle_command env k x
    ev :: handle_mqtt_loop env k' rest

/-- The telemetry records published by one dispatch event. -/
def recordsOf : DispatchEvent → List TelemetryRecord
  | .measured rs => rs
  | _ => []

/-- All telemetry records published by a run of the dispatcher loop, in
publication order. -/
def publishedRecords (evs : List DispatchEvent) : List TelemetryRecord :=
  (evs.map recordsOf).flatten

/-- A UTF-8 continuation byte (`0x80..0xBF`). -/
def contByte (b : Nat) : Bool :=
  0x80 ≤ b && b ≤ 0xBF

/-- The UTF-8 decoder of `std::str::from_utf8` (main.rs line 166), byte
exact: well-formed sequences (no overlong forms, no surrogates, at most
`U+10FFFF`) decode to the character list, anything else is rejected. -/
def utf8Decode : List Nat → Option (List Char)
  | [] => some []
  | b :: rest =>
    if b ≤ 0x7F then
      (utf8Decode rest).map (Char.ofNat b :: ·)
    else if 0xC2 ≤ b && b ≤ 0xDF then
      match rest with
      | b1 :: r =>
        if contByte b1 then
          (utf8Decode r).map (Char.ofNat ((b - 0xC0) * 64 + (b1 - 0x80)) :: ·)
        else none
      | [] => none
    else if 0xE0 ≤ b && b ≤ 0xEF then
      match rest with
      | b1 :: b2 :: r =>
        let lo1 : Nat := if b = 0xE0 then 0xA0 else 0x80
        let hi1 : Nat := if b = 0xED then 0x9F else 0xBF
        if (lo1 ≤ b1 && b1 ≤ hi1) && contByte b2 then
          (utf8Decode r).map
            (Char.ofNat ((b - 0xE0) * 4096 + (b1 - 0x80) * 64 + (b2 - 0x80)) :: ·)
        else none
      | _ => none
    else if 0xF0 ≤ b && b ≤ 0xF4 then
      match rest with
      | b1 :: b2 :: b3 :: r =>
        let lo1 : Nat := if b = 0xF0 then 0x90 else 0x80
        let hi1 : Nat := if b = 0xF4 then 0x8F else 0xBF
        if ((lo1 ≤ b1 && b1 ≤ hi1) && contByte b2) && contByte b3 then
          (utf8Decode r).map
            (Char.ofNat
              ((b - 0xF0) * 262144 + (b1 - 0x80) * 4096 + (b2 - 0x80) * 64
                + (b3 - 0x80)) :: ·)
        else none
      | _ => none
    else none

/-- The payload variants of one MQTT event seen by the listener thread
(main.rs lines 156-172). -/
inductive MqttEvent
  | connected
  | subscribed (id : Int)
  | published (id : Int)
  | received (data : List Nat)
  | other
deriving Repr

/-- The observable outcome of handling one event on the listener thread. -/
inductive IngestAction
  | logOnly
  | pushed (msg : List Char)
  | panicked
deriving DecidableEq, Repr

/-- One iteration of the MQTT event thread (main.rs lines 156-172):
non-data events are logged only; a `Received` event with empty payload is
skipped; a non-empty payload is decoded with
`std::str::from_utf8(data).unwrap()` — the `unwrap` panics the thread on
invalid UTF-8 — and on success the text is pushed onto the channel. -/
def ingestStep : MqttEvent → IngestAction
  | .received data =>
    if data = [] then .logOnly
    else
      match utf8Decode data with
      | some msg => .pushed msg
      | none => .panicked
  | _ => .logOnly

/-- The character for one decimal digit value. -/
def digitChar (d : Nat) : Char :=
  match d with
  | 0 => '0' | 1 => '1' | 2 => '2' | 3 => '3' | 4 => '4'
  | 5 => '5' | 6 => '6' | 7 => '7' | 8 => '8' | _ => '9'

/-- Rust `format!("{}", n)` for an unsigned integer: base-10 digits, most
significant first, `"0"` for zero. -/
def natToChars (n : Nat) : List Char :=
  if n = 0 then ['0']
  else ((Nat.digits 10 n).map digitChar).reverse

/-- Rust `format!("{:.2}", v)` modelled over `ℚ`: the value is rounded to
the nearest hundredth (the `f32`-exact tie-to-even and the `"-0.00"` sign
of a tiny negative are abstracted by the rational model) and printed as an
optional minus sign, the integer part, a dot and exactly two fraction
digits. -/
def fmtFixed2 (q : ℚ) : List Char :=
  let n : ℤ := round (q * 100)
  let m : Nat := n.natAbs
  (if n < 0 then ['-'] else []) ++
    natToChars (m / 100) ++ '.' :: digitChar (m / 10 % 10) :: [digitChar (m % 10)]

/-- The telemetry line `format!("{},{:.2},{}", i, temp, uptime)` published
for one record (main.rs lines 223-227). -/
def formatRecord (r : TelemetryRecord) : List Char :=
  natToChars r.remaining ++ ',' :: fmtFixed2 r.value ++ ',' :: natToChars r.uptime_ms

/-- Read a field back as an unsigned decimal numeral. -/
def natFromChars (s : List Char) : Option Nat :=
  if s = [] then none else digitsValAux s 0

/-- Unsigned fixed-point numeral `<digits> "." <two digits>`. -/
def parseFixed2Core (s : List Char) : Option ℚ :=
  match splitOn '.' s with
  | [a, b] =>
    if a ≠ [] ∧ b.length = 2 then
      match digitsValAux a 0, digitsValAux b 0 with
      | some i, some f => some ((i : ℚ) + (f : ℚ) / 100)
      | _, _ => none
    else none
  | _ => none

/-- Read a field back as a signed fixed-point numeral with exactly two
fraction digits. -/
def parseFixed2 : List Char → Option ℚ
  | [] => none
  | c :: r =>
    if c = '-' then (parseFixed2Core r).map (fun q => -q)
    else parseFixed2Core (c :: r)

/-! ### Helper lemmas: splitting -/

/-- Rust `str::split` always yields at least one segment. -/
theorem splitOn_ne_nil (sep : Char) (l : List Char) : splitOn sep l ≠ [] := by
  induction l with
  | nil => simp [splitOn]
  | cons c rest ih =>
    simp only [splitOn]
    split
    · simp
    · cases h : splitOn sep rest with
      | nil => simp
      | cons s ss => simp

/-- A separator-free prefix becomes the first segment. -/
theorem splitOn_append_sep (sep : Char) (A rest : List Char) (hA : sep ∉ A) :
    splitOn sep (A ++ sep :: rest) = A :: splitOn sep rest := by
  induction A with
  | nil => simp [splitOn]
  | cons c t ih =>
    have hc : c ≠ sep := by
      intro h
      exact hA (h ▸ List.mem_cons_self c t)
    have ht : sep ∉ t := fun h => hA (List.mem_cons_of_mem c h)
    simp only [List.cons_append, splitOn, if_neg hc, List.append_eq, ih ht]

/-- A separator-free string is a single segment. -/
theorem splitOn_of_not_mem (sep : Char) (C : List Char) (hC : sep ∉ C) :
    splitOn sep C = [C] := by
  induction C with
  | nil => simp [splitOn]
  | cons c t ih =>
    have hc : c ≠ sep := by
      intro h
      exact hC (h ▸ List.mem_cons_self c t)
    have ht : sep ∉ t := fun h => hC (List.mem_cons_of_mem c h)
    simp only [splitOn, if_neg hc, ih ht]

/-! ### Helper lemmas: the sampling loop -/

/-- The countdown loop performs exactly `amount` iterations. -/
theorem measureIter_length (env : Env) (k amount : Nat) :
    (measureIter env k amount).length = amount := by
  induction amount generalizing k with
  | zero => rfl
  | succ a ih => simp [measureIter, ih]

/-- The `remaining` fields of the countdown loop are
`amount-1, amount-2, …, 0`. -/
theorem measureIter_map_remaining (env : Env) (k amount : Nat) :
    (measureIter env k amount).map TelemetryRecord.remaining
      = (List.range amount).reverse := by
  induction amount generalizing k with
  | zero => rfl
  | succ a ih =>
    simp [measureIter, List.range_succ, ih]

/-- Unfolding one step of the dispatcher loop. -/
theorem handle_mqtt_loop_cons (env : Env) (k : Nat) (x : List Char)
    (rest : List (List Char)) :
    handle_mqtt_loop env k (x :: rest)
      = (handle_command env k x).1
          :: handle_mqtt_loop env (handle_command env k x).2 rest := by
  simp [handle_mqtt_loop]

/-- Published records of a loop run decompose per event. -/
theorem publishedRecords_cons (ev : DispatchEvent) (evs : List DispatchEvent) :
    publishedRecords (ev :: evs) = recordsOf ev ++ publishedRecords evs := by
  simp [publishedRecords]

/-- A message whose verb segment is `measure` and whose args segment parses
runs the sampling loop. -/
theorem handle_command_measure (env : Env) (k : Nat) (x args : List Char)
    (more : List (List Char)) (a d : Nat)
    (hsplit : splitOn ':' x = measureVerb :: args :: more)
    (hargs : parse_measure_args args = .ok (a, d)) :
    handle_command env k x = (.measured (measureIter env k a), k + a) := by
  simp [handle_command, hsplit, handle_measure, hargs]

/-! ### Helper lemmas: decimal digits -/

theorem digitChar_isDigit (d : Nat) (h : d < 10) : (digitChar d).isDigit = true := by
  interval_cases d <;> decide

theorem digitChar_toNat (d : Nat) (h : d < 10) : (digitChar d).toNat = 48 + d := by
  interval_cases d <;> decide

theorem digitChar_ne_comma (d : Nat) (h : d < 10) : digitChar d ≠ ',' := by
  interval_cases d <;> decide

theorem digitChar_ne_dot (d : Nat) (h : d < 10) : digitChar d ≠ '.' := by
  interval_cases d <;> decide

theorem digitChar_ne_minus (d : Nat) (h : d < 10) : digitChar d ≠ '-' := by
  interval_cases d <;> decide

theorem digitsValAux_map (L : List Nat) (acc : Nat) (h : ∀ d ∈ L, d < 10) :
    digitsValAux (L.map digitChar) acc
      = some (L.foldl (fun a d => 10 * a + d) acc) := by
  induction L generalizing acc with
  | nil => rfl
  | cons d T ih =>
    have hd : d < 10 := h d (List.mem_cons_self d T)
    have hT : ∀ e ∈ T, e < 10 := fun e he => h e (List.mem_cons_of_mem d he)
    simp only [List.map_cons, digitsValAux, digitChar_isDigit d hd, if_true,
      digitChar_toNat d hd, List.foldl_cons]
    rw [Nat.add_sub_cancel_left]
    exact ih (10 * acc + d) hT

theorem foldl_base10_reverse (L : List Nat) (acc : Nat) :
    L.reverse.foldl (fun a d => 10 * a + d) acc
      = acc * 10 ^ L.length + Nat.ofDigits 10 L := by
  induction L generalizing acc with
  | nil => simp [Nat.ofDigits_nil]
  | cons d T ih =>
    simp only [List.reverse_cons, List.foldl_append, List.foldl_cons,
      List.foldl_nil, ih, Nat.ofDigits_cons, List.length_cons]
    ring

theorem natToChars_ne_nil (n : Nat) : natToChars n ≠ [] := by
  by_cases h : n = 0
  · subst h; simp [natToChars]
  · simp only [natToChars, if_neg h]
    intro hc
    rw [List.reverse_eq_nil_iff, List.map_eq_nil_iff] at hc
    exact (Nat.digits_ne_nil_iff_ne_zero.mpr h) hc

theorem mem_natToChars (n : Nat) (c : Char) (hc : c ∈ natToChars n) :
    ∃ d, d < 10 ∧ c = digitChar d := by
  by_cases h : n = 0
  · subst h
    simp [natToChars] at hc
    exact ⟨0, by norm_num, hc⟩
  · simp only [natToChars, if_neg h, List.mem_reverse, List.mem_map] at hc
    obtain ⟨d, hd, hdc⟩ := hc
    exact ⟨d, Nat.digits_lt_base (by norm_num) hd, hdc.symm⟩

theorem natFromChars_natToChars (n : Nat) : natFromChars (natToChars n) = some n := by
  by_cases h : n = 0
  · subst h; decide
  · have hmap : natToChars n = ((Nat.digits 10 n).reverse).map digitChar := by
      simp [natToChars, if_neg h, List.map_reverse]
    rw [natFromChars, if_neg (natToChars_ne_nil n), hmap]
    rw [digitsValAux_map _ 0 (fun d hd => Nat.digits_lt_base (by norm_num)
      (List.mem_reverse.mp hd))]
    rw [foldl_base10_reverse, Nat.ofDigits_digits]
    simp

/-! ### Helper lemmas: the telemetry line format -/

theorem natToChars_not_comma (n : Nat) : ',' ∉ natToChars n := by
  intro h
  obtain ⟨d, hd, hc⟩ := mem_natToChars n ',' h
  exact digitChar_ne_comma d hd hc.symm

theorem natToChars_not_dot (n : Nat) : '.' ∉ natToChars n := by
  intro h
  obtain ⟨d, hd, hc⟩ := mem_natToChars n '.' h
  exact digitChar_ne_dot d hd hc.symm

theorem mem_fmtFixed2 (q : ℚ) (c : Char) (hc : c ∈ fmtFixed2 q) :
    c = '-' ∨ c = '.' ∨ ∃ d, d < 10 ∧ c = digitChar d := by
  simp only [fmtFixed2, List.mem_append, List.mem_cons,
    List.mem_singleton, List.not_mem_nil, or_false] at hc
  rcases hc with (h | h) | h
  · split at h
    · left
      simpa using h
    · simp at h
  · right; right
    exact mem_natToChars _ c h
  · rcases h with h | h | h
    · right; left; exact h
    · right; right
      exact ⟨_, by omega, h⟩
    · right; right
      exact ⟨_, by omega, h⟩

theorem fmtFixed2_not_comma (q : ℚ) : ',' ∉ fmtFixed2 q := by
  intro h
  rcases mem_fmtFixed2 q ',' h with h1 | h1 | ⟨d, hd, h1⟩
  · exact absurd h1 (by decide)
  · exact absurd h1 (by decide)
  · exact digitChar_ne_comma d hd h1.symm

theorem splitOn_formatRecord (r : TelemetryRecord) :
    splitOn ',' (formatRecord r)
      = [natToChars r.remaining, fmtFixed2 r.value, natToChars r.uptime_ms] := by
  unfold formatRecord
  rw [List.append_assoc, List.cons_append]
  rw [splitOn_append_sep ',' _ _ (natToChars_not_comma _),
    splitOn_append_sep ',' _ _ (fmtFixed2_not_comma _),
    splitOn_of_not_mem ',' _ (natToChars_not_comma _)]

theorem digitsValAux_natToChars (n : Nat) : digitsValAux (natToChars n) 0 = some n := by
  have h := natFromChars_natToChars n
  rwa [natFromChars, if_neg (natToChars_ne_nil n)] at h

theorem digitsValAux_two (d1 d2 : Nat) (h1 : d1 < 10) (h2 : d2 < 10) :
    digitsValAux [digitChar d1, digitChar d2] 0 = some (10 * d1 + d2) := by
  have h := digitsValAux_map [d1, d2] 0 (by
    intro d hd
    simp only [List.mem_cons, List.not_mem_nil, or_false] at hd
    rcases hd with h | h <;> omega)
  simpa using h

theorem parseFixed2Core_eval (i f : Nat) (hf : f < 100) :
    parseFixed2Core
        (natToChars i ++ '.' :: digitChar (f / 10) :: [digitChar (f % 10)])
      = some ((i : ℚ) + (f : ℚ) / 100) := by
  have hnodot : '.' ∉ [digitChar (f / 10), digitChar (f % 10)] := by
    intro h
    simp only [List.mem_cons, List.not_mem_nil, or_false] at h
    rcases h with h | h
    · exact digitChar_ne_dot (f / 10) (by omega) h.symm
    · exact digitChar_ne_dot (f % 10) (by omega) h.symm
  unfold parseFixed2Core
  rw [splitOn_append_sep '.' _ _ (natToChars_not_dot i),
    splitOn_of_not_mem '.' _ hnodot]
  simp only [ne_eq, natToChars_ne_nil i, not_false_iff, List.length_cons,
    List.length_nil, and_true, true_and, if_true]
  rw [digitsValAux_natToChars i, digitsValAux_two (f / 10) (f % 10) (by omega) (by omega)]
  have : 10 * (f / 10) + f % 10 = f := by omega
  rw [this]

theorem parseFixed2_fmtFixed2 (q : ℚ) :
    parseFixed2 (fmtFixed2 q) = some (((round (q * 100) : ℤ) : ℚ) / 100) := by
  set n : ℤ := round (q * 100) with hn
  set m : Nat := n.natAbs with hm
  have e1 : m / 10 % 10 = m % 100 / 10 := by omega
  have e2 : m % 10 = m % 100 % 10 := by omega
  have hcast : ((m / 100 : ℕ) : ℚ) + ((m % 100 : ℕ) : ℚ) / 100 = (m : ℚ) / 100 := by
    have hdm : m / 100 * 100 + m % 100 = m := by omega
    field_simp
    exact_mod_cast hdm
  by_cases hneg : n < 0
  · have hfmt : fmtFixed2 q
        = '-' :: (natToChars (m / 100)
            ++ '.' :: digitChar (m / 10 % 10) :: [digitChar (m % 10)]) := by
      simp only [fmtFixed2, ← hn, ← hm, if_pos hneg, List.cons_append,
        List.nil_append, List.append_assoc]
    rw [hfmt]
    simp only [parseFixed2, if_pos]
    rw [e1, e2, parseFixed2Core_eval (m / 100) (m % 100) (by omega)]
    rw [Option.map_some', hcast]
    have hmz : (m : ℤ) = -n := by omega
    have hmq : (m : ℚ) = -((n : ℤ) : ℚ) := by exact_mod_cast hmz
    rw [hmq]
    ring_nf
  · have hfmt : fmtFixed2 q
        = natToChars (m / 100)
            ++ '.' :: digitChar (m / 10 % 10) :: [digitChar (m % 10)] := by
      simp only [fmtFixed2, ← hn, ← hm, if_neg hneg, List.nil_append]
    obtain ⟨c, t, hct⟩ := List.exists_cons_of_ne_nil (natToChars_ne_nil (m / 100))
    have hcd : c ≠ '-' := by
      have hcmem : c ∈ natToChars (m / 100) := by
        rw [hct]; exact List.mem_cons_self c t
      obtain ⟨d, hd, hceq⟩ := mem_natToChars _ c hcmem
      rw [hceq]; exact digitChar_ne_minus d hd
    have hfmt2 : fmtFixed2 q
        = c :: (t ++ '.' :: digitChar (m / 10 % 10) :: [digitChar (m % 10)]) := by
      rw [hfmt, hct]; rfl
    rw [hfmt2]
    simp only [parseFixed2, if_neg hcd]
    rw [← List.cons_append, ← hct]
    rw [e1, e2, parseFixed2Core_eval (m / 100) (m % 100) (by omega)]
    rw [hcast]
    have hmz : (m : ℤ) = n := by omega
    have hmq : (m : ℚ) = ((n : ℤ) : ℚ) := by exact_mod_cast hmz
    rw [hmq]

theorem round_hundredth_close (q : ℚ) :
    |(((round (q * 100) : ℤ) : ℚ) / 100) - q| ≤ 1 / 100 := by
  have h := abs_sub_round (q * 100)
  rw [abs_sub_comm] at h
  have e : ((round (q * 100) : ℤ) : ℚ) / 100 - q
      = (((round (q * 100) : ℤ) : ℚ) - q * 100) / 100 := by ring
  rw [e, abs_div]
  have h100 : |(100 : ℚ)| = 100 := by norm_num
  rw [h100]
  linarith

/-! ### Helper lemmas: the calibration map -/

/-- Closed form of `calc_temp`. -/
theorem calc_temp_eq (v : ℚ) : calc_temp v = (2100 - v) * (25 / 271) := by
  simp only [calc_temp, V_T, V_1, V_2, T_1, T_2]
  norm_num
  ring

/-- The slope constant is negative. -/
theorem V_T_neg : V_T < 0 := by
  simp only [V_T, V_1, V_2, T_1, T_2]
  norm_num

/-- `calc_temp` is strictly decreasing. -/
theorem calc_temp_strictAnti (v1 v2 : ℚ) (h : v1 < v2) :
    calc_temp v2 < calc_temp v1 := by
  rw [calc_temp_eq, calc_temp_eq]
  have h25 : (0 : ℚ) < 25 / 271 := by norm_num
  nlinarith

/-- A fixed concrete environment used by witnesses. -/
def env0 : Env where
  read := fun _ => 2000
  uptime := fun k => 100 * k

/-! ### Claims -/

/-- Claim C1: for every valid `measure` command with fields `amount` and
`delay_ms`, the sampling loop emits exactly `amount` telemetry records
whose `remaining` fields form the strictly decreasing sequence
`amount-1, amount-2, …, 0`; for `amount = 0` it emits zero records and
produces no error. -/
theorem measure_emits_exact_count (env : Env) (k : Nat) (x args : List Char)
    (more : List (List Char)) (a d : Nat)
    (hsplit : splitOn ':' x = measureVerb :: args :: more)
    (hargs : parse_measure_args args = .ok (a, d)) :
    handle_command env k x = (.measured (measureIter env k a), k + a)
      ∧ (measureIter env k a).length = a
      ∧ (measureIter env k a).map TelemetryRecord.remaining = (List.range a).reverse
      ∧ (a = 0 → measureIter env k a = []) := by
  refine ⟨handle_command_measure env k x args more a d hsplit hargs,
    measureIter_length env k a, measureIter_map_remaining env k a, ?_⟩
  rintro rfl
  rfl

/-- Witness for C1 at the valid command `measure:2,5`. -/
theorem measure_emits_exact_count_witness :
    splitOn ':' ("measure:2,5".toList) = measureVerb :: ("2,5".toList) :: []
      ∧ parse_measure_args ("2,5".toList) = .ok (2, 5)
      ∧ (handle_command env0 0 ("measure:2,5".toList)
            = (.measured (measureIter env0 0 2), 0 + 2)
          ∧ (measureIter env0 0 2).length = 2
          ∧ (measureIter env0 0 2).map TelemetryRecord.remaining
              = (List.range 2).reverse
          ∧ (2 = 0 → measureIter env0 0 2 = [])) :=
  ⟨by decide, rfl,
    measure_emits_exact_count env0 0 ("measure:2,5".toList) ("2,5".toList) [] 2 5
      (by decide) rfl⟩

/-- Claim C2 counterexample: the empty input string is routed as an
unknown-verb command with empty verb, not reported as an invalid command
string: `"".split(":")` yields `[""]`, so the `is_empty` branch never
fires. -/
theorem empty_input_cex :
    handle_command env0 0 [] = (.unknownCmd [], 0)
      ∧ handle_command env0 0 [] ≠ (.invalidCommandString, 0)
      ∧ splitOn ':' [] = [[]] := by
  refine ⟨rfl, ?_, rfl⟩
  intro h
  simp [handle_command, splitOn, measureVerb] at h

/-- Claim C2 amended: the dispatcher routes the empty input string as
`Unknown` with empty verb (logging an unknown-command error); the
invalid-command-string branch is unreachable because splitting always
yields at least one segment. -/
theorem empty_input_unknown (env : Env) (k : Nat) :
    handle_command env k [] = (.unknownCmd [], k)
      ∧ ∀ (sep : Char) (y : List Char), splitOn sep y ≠ [] :=
  ⟨rfl, splitOn_ne_nil⟩

/-- Claim C3 counterexample: a non-empty payload that is not valid UTF-8
makes the event thread panic on the `unwrap` instead of logging and
dropping the message. -/
theorem invalid_utf8_cex :
    utf8Decode [255] = none
      ∧ ([255] ≠ ([] : List Nat))
      ∧ ingestStep (.received [255]) = .panicked
      ∧ ingestStep (.received [255]) ≠ .logOnly := by
  exact ⟨rfl, by decide, rfl, by decide⟩

/-- Claim C3 amended: for every inbound data-bearing event whose non-empty
payload is not valid UTF-8, the event thread panics on the `unwrap`
(terminating the ingestion thread); nothing is pushed onto the queue. -/
theorem invalid_utf8_panics (data : List Nat) (hne : data ≠ [])
    (hdec : utf8Decode data = none) :
    ingestStep (.received data) = .panicked := by
  simp [ingestStep, if_neg hne, hdec]

/-- Witness for the amended C3 at the invalid byte `0xFF`. -/
theorem invalid_utf8_panics_witness :
    ([255] ≠ ([] : List Nat)) ∧ utf8Decode [255] = none
      ∧ ingestStep (.received [255]) = .panicked :=
  ⟨by decide, rfl, invalid_utf8_panics [255] (by decide) rfl⟩

/-- Claim C4: the input `measure:5` (args segment not splitting into two
comma-separated fields) yields the `WrongArgCount` error (got 1) — one of
the two error kinds the claim allows — the model is total (no panic), and
zero telemetry records are emitted. -/
theorem measure_missing_field (env : Env) (k : Nat) :
    handle_command env k ("measure:5".toList)
        = (.argError (.wrongArgCount 1), k)
      ∧ publishedRecords (handle_mqtt_loop env k [("measure:5".toList)]) = [] :=
  ⟨rfl, rfl⟩

/-- Claim C5: the input `measure:abc,10` yields the `NotANumber` error
identifying the first (amount) field with its raw text `abc`, and no
measure command executes (zero records). -/
theorem measure_nan_amount (env : Env) (k : Nat) :
    handle_command env k ("measure:abc,10".toList)
        = (.argError (.notANumberAmount ("abc".toList)), k)
      ∧ publishedRecords (handle_mqtt_loop env k [("measure:abc,10".toList)]) = [] :=
  ⟨rfl, rfl⟩

/-- Claim C6: every input whose verb segment is not `measure` is routed as
`Unknown{verb}` (logged as an unknown-command error), emits no telemetry,
and the dispatch loop continues with the next message. -/
theorem unknown_verb_dispatch (env : Env) (k : Nat) (x : List Char)
    (xs : List (List Char)) (verb : List Char) (rest : List (List Char))
    (hsplit : splitOn ':' x = verb :: rest) (hverb : verb ≠ measureVerb) :
    handle_command env k x = (.unknownCmd verb, k)
      ∧ handle_mqtt_loop env k (x :: xs)
          = .unknownCmd verb :: handle_mqtt_loop env k xs
      ∧ recordsOf (.unknownCmd verb) = [] := by
  have h1 : handle_command env k x = (.unknownCmd verb, k) := by
    simp [handle_command, hsplit, if_neg hverb]
  refine ⟨h1, ?_, rfl⟩
  rw [handle_mqtt_loop_cons, h1]

/-- Witness for C6 at the input `foo:bar`. -/
theorem unknown_verb_dispatch_witness :
    splitOn ':' ("foo:bar".toList) = ("foo".toList) :: [("bar".toList)]
      ∧ ("foo".toList) ≠ measureVerb
      ∧ (handle_command env0 0 ("foo:bar".toList)
            = (.unknownCmd ("foo".toList), 0)
          ∧ handle_mqtt_loop env0 0 [("foo:bar".toList), ("q".toList)]
              = .unknownCmd ("foo".toList) :: handle_mqtt_loop env0 0 [("q".toList)]
          ∧ recordsOf (.unknownCmd ("foo".toList)) = []) :=
  ⟨by decide, by decide,
    unknown_verb_dispatch env0 0 ("foo:bar".toList) [("q".toList)] ("foo".toList)
      [("bar".toList)] (by decide) (by decide)⟩

/-- Claim C7: the unit conversion is the affine map
`(v - v_a) / slope + t_low`; it reproduces `T_1` at the reading `V_1` and
`T_2` at the reading `V_2` exactly (the algebraic pairing, regardless of
the descriptive labels), and it is strictly monotonic consistently with
the negative sign of the calibration slope `V_T`: strictly decreasing. -/
theorem calc_temp_affine_calibration (v1 v2 : ℚ) (h : v1 < v2) :
    calc_temp V_1 = T_1 ∧ calc_temp V_2 = T_2 ∧ V_T < 0
      ∧ calc_temp v2 < calc_temp v1 := by
  refine ⟨?_, ?_, V_T_neg, calc_temp_strictAnti v1 v2 h⟩
  · rw [calc_temp_eq]
    norm_num [V_1, T_1]
  · rw [calc_temp_eq]
    norm_num [V_2, T_2]

/-- Witness for C7 at the readings `1 < 2`. -/
theorem calc_temp_affine_calibration_witness :
    (1 : ℚ) < 2 ∧ (calc_temp V_1 = T_1 ∧ calc_temp V_2 = T_2 ∧ V_T < 0
      ∧ calc_temp 2 < calc_temp 1) :=
  ⟨by norm_num, calc_temp_affine_calibration 1 2 (by norm_num)⟩

/-- Claim C8: formatting a `TelemetryRecord` as
`<remaining>,<value to 2 dp>,<uptime_ms>` and re-splitting the line on
commas yields three fields recovering `remaining` and `uptime_ms` exactly
and the value to within `0.01` of the original. -/
theorem telemetry_roundtrip (r : TelemetryRecord) :
    splitOn ',' (formatRecord r)
        = [natToChars r.remaining, fmtFixed2 r.value, natToChars r.uptime_ms]
      ∧ natFromChars (natToChars r.remaining) = some r.remaining
      ∧ natFromChars (natToChars r.uptime_ms) = some r.uptime_ms
      ∧ ∃ v : ℚ, parseFixed2 (fmtFixed2 r.value) = some v
          ∧ |v - r.value| ≤ 1 / 100 :=
  ⟨splitOn_formatRecord r, natFromChars_natToChars _, natFromChars_natToChars _,
    _, parseFixed2_fmtFixed2 r.value, round_hundredth_close r.value⟩

/-- Claim C9: the dispatcher executes measure commands serially in queue
order: in a run starting with a valid measure of amount `a`, the published
records are the `a` records of that measure followed by the records of the
remaining queued messages; nothing of a later command is observed before
all `a` records of the first. -/
theorem measure_serializes (env : Env) (k : Nat) (x args : List Char)
    (more : List (List Char)) (a d : Nat) (rest : List (List Char))
    (hsplit : splitOn ':' x = measureVerb :: args :: more)
    (hargs : parse_measure_args args = .ok (a, d)) :
    publishedRecords (handle_mqtt_loop env k (x :: rest))
        = measureIter env k a
            ++ publishedRecords (handle_mqtt_loop env (k + a) rest)
      ∧ (measureIter env k a).length = a := by
  have h1 := handle_command_measure env k x args more a d hsplit hargs
  constructor
  · rw [handle_mqtt_loop_cons, h1, publishedRecords_cons]
    rfl
  · exact measureIter_length env k a

/-- Witness for C9: a `measure:2,5` followed by a queued `foo:bar`. -/
theorem measure_serializes_witness :
    splitOn ':' ("measure:2,5".toList) = measureVerb :: ("2,5".toList) :: []
      ∧ parse_measure_args ("2,5".toList) = .ok (2, 5)
      ∧ (publishedRecords
            (handle_mqtt_loop env0 0 [("measure:2,5".toList), ("foo:bar".toList)])
          = measureIter env0 0 2
              ++ publishedRecords (handle_mqtt_loop env0 (0 + 2) [("foo:bar".toList)])
          ∧ (measureIter env0 0 2).length = 2) :=
  ⟨by decide, rfl,
    measure_serializes env0 0 ("measure:2,5".toList) ("2,5".toList) [] 2 5
      [("foo:bar".toList)] (by decide) rfl⟩

/-- Claim C10: only the first two colon-separated segments are used (verb
and args); further segments are silently ignored, so an input splitting as
`verb :: args :: more` is handled exactly as one splitting as
`[verb, args]`. -/
theorem extra_segments_ignored (env : Env) (k : Nat) (x y verb args : List Char)
    (more : List (List Char))
    (hx : splitOn ':' x = verb :: args :: more)
    (hy : splitOn ':' y = [verb, args]) :
    handle_command env k x = handle_command env k y := by
  simp only [handle_command, hx, hy]
  by_cases hv : verb = measureVerb
  · simp only [if_pos hv, handle_measure]
  · simp only [if_neg hv]

/-- Witness for C10: `measure:3,10:extra` is handled exactly as
`measure:3,10`. -/
theorem extra_segments_ignored_witness :
    splitOn ':' ("measure:3,10:extra".toList)
        = ("measure".toList) :: ("3,10".toList) :: [("extra".toList)]
      ∧ splitOn ':' ("measure:3,10".toList)
          = [("measure".toList), ("3,10".toList)]
      ∧ handle_command env0 0 ("measure:3,10:extra".toList)
          = handle_command env0 0 ("measure:3,10".toList) :=
  ⟨by decide, by decide,
    extra_segments_ignored env0 0 ("measure:3,10:extra".toList)
      ("measure:3,10".toList) ("measure".toList) ("3,10".toList)
      [("extra".toList)] (by decide) (by decide)⟩
